import Mathlib

/-!
# Verification of the MLIR StorageUniquer

Shallow embedding of `mlir/include/mlir/Support/StorageUniquer.h`.

The header contains the template layer of the uniquer: the `get` / `erase` /
`mutate` entry points, the SFINAE selection between a storage class's own
`getKey` / `hashKey` hooks and the default derivations, and the
`StorageAllocator::copyInto` helpers.  These are translated directly from the
source.  The private implementation functions `getImpl`, `eraseImpl` and
`mutateImpl` are only declared in the header (their bodies live in
`lib/Support/StorageUniquer.cpp`, which is not part of this tree); they are
modelled from the specification, §4.2–§4.5.

Modelling choices:
* Pointers are modelled as natural numbers handed out by a monotonically
  increasing arena counter `nextAddr`; arena memory is never freed, so the
  counter never decreases and every pointer ever returned is strictly below
  the current counter.
* The observable side effects "the construction function ran", "the optional
  initializer ran" and "the cleanup hook ran" are modelled as counters on the
  uniquer state (`constructions`, `inits`, `cleanups`).
* A storage class is a record of the hooks listed in §6 of the specification
  (and in the header's class comment): optional `getKey`, the direct `KeyTy`
  constructor, optional `hashKey`, the `DenseMapInfo` fallback hash,
  `operator==(const KeyTy &) const`, and `construct`.
* `llvm::hash_combine` is modelled by a concrete deterministic mixing
  function; the development only relies on it being a function of its two
  arguments.
-/

namespace MLIRStorageUniquer

/-- Modelled from the spec: `LogicalResult` (declared in
`mlir/Support/LogicalResult.h`, which is not under the tree); §4.4 says the
mutation function "returns success or failure". -/
inductive LogicalResult where
  | success
  | failure
deriving DecidableEq

/-- The per-storage-class hooks of the header's class comment and spec §6.
`A` is the tuple of construction arguments, `K` is `KeyTy`, `V` is the
derived storage value. `getKeyFn`/`hashKeyFn` are `Option` because the header
detects their presence with `llvm::is_detected` and falls back to the default
derivation when they are absent. -/
structure StorageClass (A K V : Type) where
  /-- Optional `static KeyTy getKey(args...)`. -/
  getKeyFn : Option (A → K)
  /-- Direct construction `KeyTy(args...)`, the fallback of `getKey`. -/
  keyCtor : A → K
  /-- Optional `static unsigned hashKey(const KeyTy &)`. -/
  hashKeyFn : Option (K → Nat)
  /-- `llvm::DenseMapInfo<KeyTy>::getHashValue`, the fallback hash. -/
  denseMapHash : K → Nat
  /-- `bool operator==(const KeyTy &) const`: compares a *stored* instance
  against a *candidate* key. -/
  keyEq : V → K → Bool
  /-- `static DerivedStorage *construct(StorageAllocator &, const KeyTy &)`. -/
  construct : K → V

/-- `llvm::hash_combine(kind, keyHash)`: an (external) deterministic mix of
the kind and the key hash.  Only determinism is used by the development. -/
def hashCombine (kind keyHash : Nat) : Nat :=
  kind * 2654435769 + keyHash

/-- `StorageUniquer::getKey<ImplTy>(args...)` (header lines 259–276): the
compile-time selection between `ImplTy::getKey(args...)` when such an overload
is detected and direct construction `ImplTy::KeyTy(args...)` otherwise. -/
def getKey {A K V : Type} (c : StorageClass A K V) (args : A) : K :=
  match c.getKeyFn with
  | some f => f args
  | none => c.keyCtor args

/-- `StorageUniquer::getHash<ImplTy>(kind, derivedKey)` (header lines
282–300): `hash_combine(kind, ImplTy::hashKey(key))` when `hashKey` is
detected, otherwise `hash_combine(kind, DenseMapInfo<KeyTy>::getHashValue(key))`. -/
def getHash {A K V : Type} (c : StorageClass A K V) (kind : Nat) (key : K) : Nat :=
  match c.hashKeyFn with
  | some h => hashCombine kind (h key)
  | none => hashCombine kind (c.denseMapHash key)

/-- The key-derivation rule as the spec words it (§4.2 step 1): "use the
class's own key-construction function if it defines one; otherwise construct
the key type directly from the arguments". -/
def specDerivedKey {A K V : Type} (c : StorageClass A K V) (args : A) : K :=
  (c.getKeyFn.map (fun f => f args)).getD (c.keyCtor args)

/-- The hash rule as the spec words it (§4.2 step 2): "hash = combine(kind,
keyHash), where keyHash comes from the class's own hashing function if
declared, otherwise a default structural hash of the key value". -/
def specDerivedHash {A K V : Type} (c : StorageClass A K V) (kind : Nat) (key : K) : Nat :=
  hashCombine kind ((c.hashKeyFn.map (fun h => h key)).getD (c.denseMapHash key))

/-- One uniqued storage instance as the registry sees it: its address (the
pointer identity), the engine-assigned `kind` field of `BaseStorage`, the
hash it was inserted under, and the stored value. -/
structure Inst (V : Type) where
  addr : Nat
  kind : Nat
  hash : Nat
  val : V
deriving DecidableEq

/-- Modelled from the spec: a `RegistryEntry` (spec §3) owns "a collection of
canonical instances keyed by (kind, derived-key) for complex storages, and/or
a single canonical slot per kind for key-less storages".  `simple` maps a
kind to the address of its canonical instance. -/
structure Entry (V : Type) where
  complex : List (Inst V)
  simple : List (Nat × Nat)
deriving DecidableEq

/-- Modelled from the spec: the uniquer state — the registry (classification
tag ↦ entry), the arena allocation counter, and the observable effect
counters for construction, initializer and cleanup invocations. -/
structure UniquerState (V : Type) where
  entries : List (Nat × Entry V)
  nextAddr : Nat
  constructions : Nat
  inits : Nat
  cleanups : Nat
deriving DecidableEq

/-- Look up the registry entry for a classification tag. -/
def lookupEntry {V : Type} (l : List (Nat × Entry V)) (tag : Nat) : Option (Entry V) :=
  (l.find? (fun p => p.1 == tag)).map (fun p => p.2)

/-- Replace the registry entry for `tag` by `f` of it (other tags untouched). -/
def updateEntry {V : Type} (l : List (Nat × Entry V)) (tag : Nat) (f : Entry V → Entry V) :
    List (Nat × Entry V) :=
  l.map (fun p => if p.1 == tag then (p.1, f p.2) else p)

/-- `registerStorageType(TypeID id)` (spec §4.2 registration): idempotent,
creates the registry entry for the tag if absent. -/
def registerStorageType {V : Type} (st : UniquerState V) (tag : Nat) : UniquerState V :=
  match lookupEntry st.entries tag with
  | some _ => st
  | none => { st with entries := (tag, ⟨[], []⟩) :: st.entries }

/-- Spec §4.2 step 4: probe the keyed collection for an existing instance
"with matching hash and with `instance == key` true under the storage class's
equality rule". -/
def findInst {V : Type} (l : List (Inst V)) (hsh : Nat) (isEq : V → Bool) : Option (Inst V) :=
  l.find? (fun i => i.hash == hsh && isEq i.val)

/-- Remove the first element matching a predicate (erase removes exactly the
instance the probe located). -/
def removeFirst {α : Type} (pr : α → Bool) : List α → List α
  | [] => []
  | a :: t => if pr a then t else a :: removeFirst pr t

/-- Modelled from the spec: `StorageUniquer::getImpl` for complex storage
(declared at header lines 232–234, body in the missing
`lib/Support/StorageUniquer.cpp`).  Spec §4.2 steps 3–5: under the entry's
guard, probe for an existing instance; if found return it unchanged;
otherwise construct (the caller passes the already-built value `ctorVal` and
the number `initRuns` of initializer invocations its ctor closure performs),
assign `kind`, insert, return.  `none` means the tag was never registered
(a fatal programming error per spec §7). -/
def getImplComplex {V : Type} (st : UniquerState V) (tag kind hsh : Nat)
    (isEq : V → Bool) (ctorVal : V) (initRuns : Nat) : Option (Nat × UniquerState V) :=
  match lookupEntry st.entries tag with
  | none => none
  | some e =>
    match findInst e.complex hsh isEq with
    | some i => some (i.addr, st)
    | none =>
      let a := st.nextAddr
      some (a,
        { st with
          entries := updateEntry st.entries tag
            (fun e2 => { e2 with complex := ⟨a, kind, hsh, ctorVal⟩ :: e2.complex })
          nextAddr := a + 1
          constructions := st.constructions + 1
          inits := st.inits + initRuns })

/-- Modelled from the spec: `StorageUniquer::getImpl` for key-less storage
(declared at header lines 238–239).  Spec §4.3: each kind maps to at most one
canonical instance; the first call constructs (default construction plus the
optional initializer), later calls return the existing slot. -/
def getImplSimple {V : Type} (st : UniquerState V) (tag kind : Nat)
    (initRuns : Nat) : Option (Nat × UniquerState V) :=
  match lookupEntry st.entries tag with
  | none => none
  | some e =>
    match e.simple.find? (fun p => p.1 == kind) with
    | some p => some (p.2, st)
    | none =>
      let a := st.nextAddr
      some (a,
        { st with
          entries := updateEntry st.entries tag
            (fun e2 => { e2 with simple := (kind, a) :: e2.simple })
          nextAddr := a + 1
          constructions := st.constructions + 1
          inits := st.inits + initRuns })

/-- Modelled from the spec: `StorageUniquer::eraseImpl` (declared at header
lines 243–245).  Spec §4.5: under the guard, locate the matching instance; if
found, invoke its cleanup function and remove it from the collection (arena
memory is NOT freed, so `nextAddr` is untouched); if not found, a silent
no-op. -/
def eraseImpl {V : Type} (st : UniquerState V) (tag hsh : Nat) (isEq : V → Bool) :
    Option (UniquerState V) :=
  match lookupEntry st.entries tag with
  | none => none
  | some e =>
    match findInst e.complex hsh isEq with
    | none => some st
    | some _ =>
      some { st with
        entries := updateEntry st.entries tag
          (fun e2 => { e2 with
            complex := removeFirst (fun i => i.hash == hsh && isEq i.val) e2.complex })
        cleanups := st.cleanups + 1 }

/-- Set (through the pointer) the stored value of the instance at `addr`. -/
def setVal {V : Type} (l : List (Inst V)) (addr : Nat) (v : V) : List (Inst V) :=
  l.map (fun i => if i.addr == addr then { i with val := v } else i)

/-- Modelled from the spec: `StorageUniquer::mutateImpl` (declared at header
lines 248–250) combined with the header's `mutate` wrapper (lines 198–205):
under the entry's guard, run the storage class's mutation function on the
instance and hand its `LogicalResult` back to the caller unchanged.  `mutFn`
returns `some v` on success (the updated value) and `none` on failure; a
failed mutation leaves the instance untouched.  `none` at the outer level
means the tag was unregistered or the pointer is not an instance of this
uniquer (caller contract violations). -/
def mutateOp {V : Type} (st : UniquerState V) (tag addr : Nat) (mutFn : V → Option V) :
    Option (LogicalResult × UniquerState V) :=
  match lookupEntry st.entries tag with
  | none => none
  | some e =>
    match e.complex.find? (fun i => i.addr == addr) with
    | none => none
    | some i =>
      match mutFn i.val with
      | none => some (LogicalResult.failure, st)
      | some v =>
        some (LogicalResult.success,
          { st with
            entries := updateEntry st.entries tag
              (fun e2 => { e2 with complex := setVal e2.complex addr v }) })

/-- Apply the optional `initFn` the way the header's ctor closures do
(`if (initFn) initFn(storage);`). -/
def applyInit {V : Type} (initFn : Option (V → V)) (v : V) : V :=
  match initFn with
  | some f => f v
  | none => v

/-- `StorageUniquer::get` for parametric storage (header lines 152–178):
derive the key with `getKey`, the hash with `getHash`, build the equality
closure comparing a stored instance against the derived key, build the ctor
closure (`Storage::construct` then the optional `initFn`), and dispatch to
`getImpl`. -/
def getOp {A K V : Type} (c : StorageClass A K V) (initFn : Option (V → V))
    (st : UniquerState V) (tag kind : Nat) (args : A) : Option (Nat × UniquerState V) :=
  let derivedKey := getKey c args
  let hashValue := getHash c kind derivedKey
  getImplComplex st tag kind hashValue
    (fun v => c.keyEq v derivedKey)
    (applyInit initFn (c.construct derivedKey))
    (if initFn.isSome then 1 else 0)

/-- `StorageUniquer::get` for key-less storage (header lines 184–194):
default-construct, run the optional `initFn`, dispatch to the kind-only
`getImpl`. -/
def getSimpleOp {V : Type} (initFn : Option (V → V)) (st : UniquerState V)
    (tag kind : Nat) : Option (Nat × UniquerState V) :=
  getImplSimple st tag kind (if initFn.isSome then 1 else 0)

/-- `StorageUniquer::erase` (header lines 209–227): re-derive key and hash
exactly as `get` does, build the same equality closure, and dispatch to
`eraseImpl` with the cleanup closure. -/
def eraseOp {A K V : Type} (c : StorageClass A K V) (st : UniquerState V)
    (tag kind : Nat) (args : A) : Option (UniquerState V) :=
  let derivedKey := getKey c args
  let hashValue := getHash c kind derivedKey
  eraseImpl st tag hashValue (fun v => c.keyEq v derivedKey)

/-- The bump-pointer arena behind `StorageUniquer::StorageAllocator`:
append-only, no deallocation; `allocations` counts `Allocate` calls. -/
structure StorageAllocator where
  allocations : Nat
deriving DecidableEq

/-- `StorageAllocator::copyInto(ArrayRef<T>)` (header lines 120–126): an
empty input returns the empty reference (`llvm::None`) without touching the
allocator; otherwise allocate `size()` elements, copy, and return a reference
of the same length over the copy. -/
def copyInto {α : Type} (a : StorageAllocator) (elements : List α) :
    List α × StorageAllocator :=
  if elements.isEmpty then ([], a)
  else (elements, { allocations := a.allocations + 1 })

/-- `StorageAllocator::copyInto(StringRef)` (header lines 130–133): copy the
characters through the array overload and rebuild a `StringRef` of the
original length over the copy. -/
def copyIntoStr (a : StorageAllocator) (s : String) : String × StorageAllocator :=
  let r := copyInto a s.toList
  (String.mk r.1, r.2)

/-- The state produced by the construct-and-insert branch of `get()` (spec
§4.2 step 5): the new instance, carrying the engine-assigned kind, the probe
hash and the constructed-then-initialized value, is inserted at a fresh
address; the construction counter and (when an initializer was supplied) the
initializer counter advance. -/
def insertResult {A K V : Type} (c : StorageClass A K V) (initFn : Option (V → V))
    (st : UniquerState V) (tag kind : Nat) (args : A) : UniquerState V :=
  { st with
    entries := updateEntry st.entries tag
      (fun e2 => { e2 with
        complex := ⟨st.nextAddr, kind, getHash c kind (getKey c args),
          applyInit initFn (c.construct (getKey c args))⟩ :: e2.complex })
    nextAddr := st.nextAddr + 1
    constructions := st.constructions + 1
    inits := st.inits + (if initFn.isSome then 1 else 0) }

/-- The probe predicate `get()` uses for key `key`: matching hash and
`instance == key` under the class's equality rule. -/
def probePred {A K V : Type} (c : StorageClass A K V) (kind : Nat) (key : K)
    (i : Inst V) : Bool :=
  i.hash == getHash c kind key && c.keyEq i.val key

/-- The number of instances in a collection that the probe (matching hash
`hsh` and equality test `isEq`) would accept.  Invariant I1 of the spec ("at
most one live instance per (kind, key)") says this count is at most one in
every reachable state. -/
def matchCount {V : Type} (l : List (Inst V)) (hsh : Nat) (isEq : V → Bool) : Nat :=
  (l.filter (fun i => i.hash == hsh && isEq i.val)).length

/-- The state produced by the construct-and-insert branch of the key-less
`get()` (spec §4.3): a fresh canonical slot for the kind. -/
def simpleInsertResult {V : Type} (initFn : Option (V → V)) (st : UniquerState V)
    (tag kind : Nat) : UniquerState V :=
  { st with
    entries := updateEntry st.entries tag
      (fun e2 => { e2 with simple := (kind, st.nextAddr) :: e2.simple })
    nextAddr := st.nextAddr + 1
    constructions := st.constructions + 1
    inits := st.inits + (if initFn.isSome then 1 else 0) }

/-- The state produced by the found branch of `erase()` (spec §4.5): the
located instance leaves the collection, its cleanup hook runs once, and the
arena counter is untouched (memory is never freed). -/
def eraseResult {A K V : Type} (c : StorageClass A K V) (st : UniquerState V)
    (tag kind : Nat) (args : A) : UniquerState V :=
  { st with
    entries := updateEntry st.entries tag
      (fun e2 => { e2 with
        complex := removeFirst
          (fun i => i.hash == getHash c kind (getKey c args)
            && c.keyEq i.val (getKey c args)) e2.complex })
    cleanups := st.cleanups + 1 }

/-- Arena freshness: every address stored in the registry was handed out by
the arena counter, hence is strictly below `nextAddr`.  Every reachable
uniquer state satisfies this (addresses only come from the counter, which
only grows and is never reused). -/
def addrBound {V : Type} (st : UniquerState V) : Prop :=
  ∀ q ∈ st.entries,
    (∀ i ∈ q.2.complex, i.addr < st.nextAddr) ∧ (∀ p ∈ q.2.simple, p.2 < st.nextAddr)

/-- The canonical instance for `key` sits in the entry's collection, is the
first instance the probe accepts, and carries address `p`; no instance before
it is probe-accepted or shares its address. -/
def canonAt {A K V : Type} (c : StorageClass A K V) (st : UniquerState V)
    (tag kind : Nat) (key : K) (p : Nat) : Prop :=
  ∃ e pre i post,
    lookupEntry st.entries tag = some e ∧
    e.complex = pre ++ i :: post ∧
    (∀ j ∈ pre, probePred c kind key j = false ∧ j.addr ≠ p) ∧
    probePred c kind key i = true ∧
    i.addr = p

/-- `n` back-to-back `get()` calls with the same tag, kind and arguments (the
serialization of `n` racing callers: spec §4.2 makes steps 3–5 one atomic
region per registry entry, so any concurrent execution is equivalent to some
such sequence).  Returns the list of returned pointers and the final state. -/
def getIter {A K V : Type} (c : StorageClass A K V) (initFn : Option (V → V))
    (tag kind : Nat) (args : A) : Nat → UniquerState V → Option (List Nat × UniquerState V)
  | 0, st => some ([], st)
  | Nat.succ n, st =>
    match getOp c initFn st tag kind args with
    | none => none
    | some (p, st1) =>
      match getIter c initFn tag kind args n st1 with
      | none => none
      | some (ps, st2) => some (p :: ps, st2)

/-- A sequence of `mutate()` calls on the instance at `addr` (each call's
trailing arguments are already folded into its mutation function). -/
def mutateSeq {V : Type} (tag addr : Nat) :
    List (V → Option V) → UniquerState V → Option (UniquerState V)
  | [], st => some st
  | f :: fs, st =>
    match mutateOp st tag addr f with
    | none => none
    | some (_, st1) => mutateSeq tag addr fs st1

/-- Example storage class used to evaluate the development on concrete
inputs: `KeyTy = unsigned`, the stored value is the key itself, no custom
`getKey`/`hashKey` hooks. -/
def exClass : StorageClass Nat Nat Nat :=
  { getKeyFn := none
    keyCtor := fun a => a
    hashKeyFn := none
    denseMapHash := fun k => k
    keyEq := fun v k => v == k
    construct := fun k => k }

/-- Fresh uniquer with classification tag 0 registered. -/
def exSt0 : UniquerState Nat :=
  { entries := [(0, ⟨[], []⟩)], nextAddr := 0, constructions := 0, inits := 0, cleanups := 0 }

/-- `exSt0` after `get(tag 0, kind 1, key 5)` constructed the instance. -/
def exSt1 : UniquerState Nat :=
  { entries := [(0, ⟨[⟨0, 1, hashCombine 1 5, 5⟩], []⟩)]
    nextAddr := 1
    constructions := 1
    inits := 0
    cleanups := 0 }

/-- A state holding one instance for tag 0, kind 2, key 7. -/
def exSt4 : UniquerState Nat :=
  { entries := [(0, ⟨[⟨0, 2, hashCombine 2 7, 7⟩], []⟩)]
    nextAddr := 1
    constructions := 1
    inits := 0
    cleanups := 0 }

/-- `exSt4` after erasing (kind 2, key 7): collection empty, cleanup ran
once, arena memory untouched. -/
def exSt5 : UniquerState Nat :=
  { entries := [(0, ⟨[], []⟩)]
    nextAddr := 1
    constructions := 1
    inits := 0
    cleanups := 1 }

/-- `exSt5` after re-creating (kind 2, key 7): a fresh instance at address 1. -/
def exSt6 : UniquerState Nat :=
  { entries := [(0, ⟨[⟨1, 2, hashCombine 2 7, 7⟩], []⟩)]
    nextAddr := 2
    constructions := 2
    inits := 0
    cleanups := 1 }

/-- Example storage class with a mutable payload: the stored value is
`(key, payload)`, the key part is immutable and is the only field the
equality rule reads. -/
def exClassPair : StorageClass Nat Nat (Nat × Nat) :=
  { getKeyFn := none
    keyCtor := fun a => a
    hashKeyFn := none
    denseMapHash := fun k => k
    keyEq := fun v k => v.1 == k
    construct := fun k => (k, 0) }

/-- A mutation function bumping only the mutable payload. -/
def exMut : Nat × Nat → Option (Nat × Nat) :=
  fun v => some (v.1, v.2 + 1)

/-- Fresh uniquer (pair-valued storages) with tag 0 registered. -/
def exPairSt0 : UniquerState (Nat × Nat) :=
  { entries := [(0, ⟨[], []⟩)], nextAddr := 0, constructions := 0, inits := 0, cleanups := 0 }

/-- `exPairSt0` after `get(tag 0, kind 1, key 5)`. -/
def exPairSt1 : UniquerState (Nat × Nat) :=
  { entries := [(0, ⟨[⟨0, 1, hashCombine 1 5, (5, 0)⟩], []⟩)]
    nextAddr := 1
    constructions := 1
    inits := 0
    cleanups := 0 }

/-- `exPairSt1` after one successful `mutate` through `exMut`. -/
def exPairSt2 : UniquerState (Nat × Nat) :=
  { entries := [(0, ⟨[⟨0, 1, hashCombine 1 5, (5, 1)⟩], []⟩)]
    nextAddr := 1
    constructions := 1
    inits := 0
    cleanups := 0 }

/-- `exSt0` after the key-less `get(tag 0, kind 1)`. -/
def exSimple1 : UniquerState Nat :=
  { entries := [(0, ⟨[], [(1, 0)]⟩)]
    nextAddr := 1
    constructions := 1
    inits := 0
    cleanups := 0 }

/-- `exSimple1` after the key-less `get(tag 0, kind 2)`. -/
def exSimple2 : UniquerState Nat :=
  { entries := [(0, ⟨[], [(2, 1), (1, 0)]⟩)]
    nextAddr := 2
    constructions := 2
    inits := 0
    cleanups := 0 }

/-- C3: the key used by `get()` equals the storage class's `getKey(args...)`
when the class declares one applicable to the arguments and otherwise equals
`KeyTy` constructed directly from the arguments, and the hash equals
`combine(kind, hashKey(key))` when the class declares `hashKey` and otherwise
`combine(kind, structural-default-hash(key))`: the source's SFINAE selection
(`getKey`, `getHash`) coincides with the spec's derivation rule
(`specDerivedKey`, `specDerivedHash`) for every storage class. -/
theorem getKey_getHash_selection_rule {A K V : Type} (c : StorageClass A K V)
    (args : A) (kind : Nat) (key : K) :
    getKey c args = specDerivedKey c args ∧
      getHash c kind key = specDerivedHash c kind key := by
  constructor
  · cases h : c.getKeyFn with
    | none => simp [getKey, specDerivedKey, h]
    | some f => simp [getKey, specDerivedKey, h, Option.get]
  · cases h : c.hashKeyFn with
    | none => simp [getHash, specDerivedHash, h]
    | some f => simp [getHash, specDerivedHash, h, Option.get]

/-- C10: `copyInto` returns a reference of the same length whose elements
equal the source elementwise; the string overload returns a `StringRef` equal
to the source string; an empty array and the empty string come back as the
empty reference with the allocator untouched (no arena allocation). -/
theorem copyInto_roundtrip {α : Type} (a : StorageAllocator) (elements : List α)
    (s : String) :
    (copyInto a elements).1 = elements ∧
      (copyInto a elements).1.length = elements.length ∧
      copyInto a ([] : List α) = ([], a) ∧
      (copyIntoStr a s).1 = s ∧
      copyIntoStr a "" = ("", a) := by
  refine ⟨?_, ?_, ?_, ?_, ?_⟩
  · by_cases h : elements.isEmpty
    · simp [copyInto, h, List.isEmpty_iff.mp h]
    · simp [copyInto, h]
  · by_cases h : elements.isEmpty
    · simp [copyInto, h, List.isEmpty_iff.mp h]
    · simp [copyInto, h]
  · simp [copyInto]
  · cases s with
    | mk data =>
      cases data with
      | nil => simp [copyIntoStr, copyInto, String.toList]
      | cons ch rest => simp [copyIntoStr, copyInto, String.toList]
  · simp [copyIntoStr, copyInto, String.toList]

/-! ## List and registry plumbing lemmas -/

theorem find_congr {α : Type} (p q : α → Bool) (l : List α) (h : ∀ x, p x = q x) :
    l.find? p = l.find? q := by
  have hpq : p = q := funext h
  rw [hpq]

theorem find_middle {α : Type} (pr : α → Bool) (l1 : List α) (x : α) (l2 : List α)
    (h1 : ∀ j ∈ l1, pr j = false) (hx : pr x = true) :
    (l1 ++ x :: l2).find? pr = some x := by
  induction l1 with
  | nil =>
    rw [List.nil_append]
    exact List.find?_cons_of_pos _ hx
  | cons a t ih =>
    have ha : pr a = false := h1 a (by simp)
    simp only [List.cons_append]
    rw [List.find?_cons_of_neg _ (by simp [ha])]
    exact ih (fun j hj => h1 j (by simp [hj]))

theorem find_split {α : Type} (pr : α → Bool) (l : List α) (x : α)
    (h : l.find? pr = some x) :
    ∃ l1 l2, l = l1 ++ x :: l2 ∧ ∀ j ∈ l1, pr j = false := by
  induction l with
  | nil =>
    rw [List.find?_nil] at h
    exact Option.noConfusion h
  | cons a t ih =>
    cases ha : pr a with
    | true =>
      rw [List.find?_cons_of_pos _ ha] at h
      cases h
      exact ⟨[], t, rfl, by simp⟩
    | false =>
      rw [List.find?_cons_of_neg _ (by simp [ha])] at h
      obtain ⟨l1, l2, hl, hl1⟩ := ih h
      refine ⟨a :: l1, l2, by rw [hl, List.cons_append], ?_⟩
      intro j hj
      rcases List.mem_cons.mp hj with h1 | h2
      · rw [h1]; exact ha
      · exact hl1 j h2

theorem lookupEntry_updateEntry {V : Type} (l : List (Nat × Entry V)) (tag : Nat)
    (f : Entry V → Entry V) :
    lookupEntry (updateEntry l tag f) tag = (lookupEntry l tag).map f := by
  induction l with
  | nil => rfl
  | cons q t ih =>
    cases hq : (q.1 == tag) with
    | true =>
      have h1 : updateEntry (q :: t) tag f = (q.1, f q.2) :: updateEntry t tag f := by
        simp only [updateEntry, List.map_cons]
        rw [if_pos hq]
      rw [h1]
      unfold lookupEntry
      rw [List.find?_cons_of_pos (p := fun r : Nat × Entry V => r.1 == tag)
          (a := (q.1, f q.2)) _ hq,
        List.find?_cons_of_pos (p := fun r : Nat × Entry V => r.1 == tag) (a := q) _ hq]
      rfl
    | false =>
      have h1 : updateEntry (q :: t) tag f = q :: updateEntry t tag f := by
        simp only [updateEntry, List.map_cons]
        rw [if_neg (by simp [hq])]
      rw [h1]
      unfold lookupEntry
      rw [List.find?_cons_of_neg (p := fun r : Nat × Entry V => r.1 == tag) _
          (by simp [hq]),
        List.find?_cons_of_neg (p := fun r : Nat × Entry V => r.1 == tag) _
          (by simp [hq])]
      exact ih

theorem lookupEntry_mem {V : Type} (l : List (Nat × Entry V)) (tag : Nat) (e : Entry V)
    (h : lookupEntry l tag = some e) : (tag, e) ∈ l := by
  unfold lookupEntry at h
  cases hf : l.find? (fun p => p.1 == tag) with
  | none => rw [hf] at h; simp at h
  | some q =>
    rw [hf] at h
    simp at h
    have hq0 := List.find?_some hf
    have hq : (q.1 == tag) = true := by simpa using hq0
    have hmem := List.mem_of_find?_eq_some hf
    have h1 : q.1 = tag := by simpa using hq
    have : (tag, e) = q := by
      cases q with
      | mk q1 q2 => simp_all
    rw [this]
    exact hmem

theorem find_none_of_count_zero {α : Type} (pr : α → Bool) (l : List α)
    (h : (l.filter pr).length = 0) : l.find? pr = none := by
  rw [List.find?_eq_none]
  exact fun x hx hpx =>
    List.filter_eq_nil_iff.mp (List.length_eq_zero.mp h) x hx hpx

theorem removeFirst_find_none {α : Type} (pr : α → Bool) (l : List α) (x : α)
    (hfind : l.find? pr = some x) (hone : (l.filter pr).length ≤ 1) :
    (removeFirst pr l).find? pr = none := by
  induction l with
  | nil => simp [List.find?] at hfind
  | cons a t ih =>
    cases ha : pr a with
    | true =>
      have hrm : removeFirst pr (a :: t) = t := by simp [removeFirst, ha]
      rw [hrm]
      have hcnt : (List.filter pr (a :: t)).length = (List.filter pr t).length + 1 := by
        rw [List.filter_cons_of_pos ha]
        simp
      apply find_none_of_count_zero
      omega
    | false =>
      have hrm : removeFirst pr (a :: t) = a :: removeFirst pr t := by
        simp [removeFirst, ha]
      rw [hrm, List.find?_cons_of_neg _ (by simp [ha])]
      rw [List.find?_cons_of_neg _ (by simp [ha])] at hfind
      have hft : (List.filter pr t).length ≤ 1 := by
        rw [List.filter_cons_of_neg (by simp [ha])] at hone
        exact hone
      exact ih hfind hft

/-! ## Shape lemmas for the engine operations -/

theorem getOp_eq_found {A K V : Type} (c : StorageClass A K V) (initFn : Option (V → V))
    (st : UniquerState V) (tag kind : Nat) (args : A) (e : Entry V) (i : Inst V)
    (hreg : lookupEntry st.entries tag = some e)
    (hfound : findInst e.complex (getHash c kind (getKey c args))
      (fun v => c.keyEq v (getKey c args)) = some i) :
    getOp c initFn st tag kind args = some (i.addr, st) := by
  simp only [getOp, getImplComplex, hreg, hfound]

theorem getOp_eq_miss {A K V : Type} (c : StorageClass A K V) (initFn : Option (V → V))
    (st : UniquerState V) (tag kind : Nat) (args : A) (e : Entry V)
    (hreg : lookupEntry st.entries tag = some e)
    (hmiss : findInst e.complex (getHash c kind (getKey c args))
      (fun v => c.keyEq v (getKey c args)) = none) :
    getOp c initFn st tag kind args =
      some (st.nextAddr, insertResult c initFn st tag kind args) := by
  simp only [getOp, getImplComplex, insertResult, hreg, hmiss]

/-- Core stability lemma: once a `get()` call has settled the canonical
instance for a key, a further `get()` with an equality-equivalent,
equal-hashing key returns the same pointer and leaves the state untouched. -/
theorem get_stable {A K V : Type} (c : StorageClass A K V) (initFn : Option (V → V))
    (st : UniquerState V) (tag kind : Nat) (a1 a2 : A) (p : Nat) (st1 : UniquerState V)
    (hk : ∀ v, c.keyEq v (getKey c a2) = c.keyEq v (getKey c a1))
    (hh : getHash c kind (getKey c a2) = getHash c kind (getKey c a1))
    (hctor : c.keyEq (applyInit initFn (c.construct (getKey c a1))) (getKey c a1) = true)
    (h1 : getOp c initFn st tag kind a1 = some (p, st1)) :
    getOp c initFn st1 tag kind a2 = some (p, st1) := by
  cases hreg : lookupEntry st.entries tag with
  | none =>
    unfold getOp getImplComplex at h1
    rw [hreg] at h1
    simp at h1
  | some e =>
    have hpred : ∀ i : Inst V,
        (i.hash == getHash c kind (getKey c a2)
          && (fun v => c.keyEq v (getKey c a2)) i.val)
        = (i.hash == getHash c kind (getKey c a1)
          && (fun v => c.keyEq v (getKey c a1)) i.val) := by
      intro i
      simp only []
      rw [hh, hk]
    cases hfind : findInst e.complex (getHash c kind (getKey c a1))
        (fun v => c.keyEq v (getKey c a1)) with
    | some i =>
      have h1' := getOp_eq_found c initFn st tag kind a1 e i hreg hfind
      rw [h1'] at h1
      have hp : i.addr = p := by
        simpa using congrArg (fun o => o.map (fun r => r.1)) h1
      have hst : st = st1 := by
        simpa using congrArg (fun o => o.map (fun r => r.2)) h1
      have hfind2 : findInst e.complex (getHash c kind (getKey c a2))
          (fun v => c.keyEq v (getKey c a2)) = some i := by
        unfold findInst at hfind ⊢
        rw [find_congr _ _ _ hpred]
        exact hfind
      have := getOp_eq_found c initFn st tag kind a2 e i hreg hfind2
      rw [← hst, this, hp]
    | none =>
      have h1' := getOp_eq_miss c initFn st tag kind a1 e hreg hfind
      rw [h1'] at h1
      have hp : st.nextAddr = p := by
        simpa using congrArg (fun o => o.map (fun r => r.1)) h1
      have hst : insertResult c initFn st tag kind a1 = st1 := by
        simpa using congrArg (fun o => o.map (fun r => r.2)) h1
      subst hst
      have hent : (insertResult c initFn st tag kind a1).entries =
          updateEntry st.entries tag (fun e2 => { e2 with complex :=
            ⟨st.nextAddr, kind, getHash c kind (getKey c a1),
              applyInit initFn (c.construct (getKey c a1))⟩ :: e2.complex }) := rfl
      have hreg1 : lookupEntry (insertResult c initFn st tag kind a1).entries tag =
          some { e with complex :=
            ⟨st.nextAddr, kind, getHash c kind (getKey c a1),
              applyInit initFn (c.construct (getKey c a1))⟩ :: e.complex } := by
        rw [hent, lookupEntry_updateEntry, hreg]
        rfl
      have hfound1 : findInst ({ e with complex :=
            ⟨st.nextAddr, kind, getHash c kind (getKey c a1),
              applyInit initFn (c.construct (getKey c a1))⟩ :: e.complex } : Entry V).complex
          (getHash c kind (getKey c a2)) (fun v => c.keyEq v (getKey c a2)) =
          some ⟨st.nextAddr, kind, getHash c kind (getKey c a1),
            applyInit initFn (c.construct (getKey c a1))⟩ := by
        unfold findInst
        apply List.find?_cons_of_pos
        simp only []
        rw [hh, hk]
        simp [hctor]
      have hfin := getOp_eq_found c initFn (insertResult c initFn st tag kind a1) tag kind a2
        _ _ hreg1 hfound1
      rw [hfin]
      simp [hp]

/-! ## Claim theorems -/

/-- C1: uniqueness of `get`.  If a `get()` call on a registered tag returned
pointer `p` (hypothesis `h1`; success of `get` implies the tag is
registered), then a second `get()` with the same kind and an
equal-by-the-class's-equality key (hypotheses `hk`/`hh`: the second derived
key is indistinguishable from the first under the class's equality rule and
hashes identically, the coherence every `DenseMapInfo`-style key must
satisfy; `hctor`: a constructed-and-initialized instance compares equal to
its own key, the storage-class contract) returns the identical pointer `p`
and leaves the state untouched — in particular the second call performs no
construction (`constructions` is unchanged because the whole state is). -/
theorem get_returns_identical_for_equal_keys {A K V : Type} (c : StorageClass A K V)
    (initFn : Option (V → V)) (st : UniquerState V) (tag kind : Nat) (a1 a2 : A)
    (p : Nat) (st1 : UniquerState V)
    (hk : ∀ v, c.keyEq v (getKey c a2) = c.keyEq v (getKey c a1))
    (hh : getHash c kind (getKey c a2) = getHash c kind (getKey c a1))
    (hctor : c.keyEq (applyInit initFn (c.construct (getKey c a1))) (getKey c a1) = true)
    (h1 : getOp c initFn st tag kind a1 = some (p, st1)) :
    getOp c initFn st1 tag kind a2 = some (p, st1) :=
  get_stable c initFn st tag kind a1 a2 p st1 hk hh hctor h1

theorem get_returns_identical_for_equal_keys_witness :
    getOp exClass none exSt1 0 1 5 = some (0, exSt1) :=
  get_returns_identical_for_equal_keys exClass none exSt0 0 1 5 5 0 exSt1
    (fun v => rfl) rfl (by decide) (by decide)

/-- C4: found-instance frame property.  When the probe finds an existing
instance `i` whose stored value equals the candidate key under the class's
equality rule, `get()` returns that instance's pointer with the state
literally unchanged: no field of any instance changes, the `inits` counter
does not move (the optional initializer is never invoked) and the
`constructions` counter does not move (the constructor arguments are
discarded without being used for construction). -/
theorem get_found_frame {A K V : Type} (c : StorageClass A K V) (initFn : Option (V → V))
    (st : UniquerState V) (tag kind : Nat) (args : A) (e : Entry V) (i : Inst V)
    (hreg : lookupEntry st.entries tag = some e)
    (hfound : findInst e.complex (getHash c kind (getKey c args))
      (fun v => c.keyEq v (getKey c args)) = some i) :
    getOp c initFn st tag kind args = some (i.addr, st) :=
  getOp_eq_found c initFn st tag kind args e i hreg hfound

theorem get_found_frame_witness :
    getOp exClass none exSt4 0 2 7 = some (0, exSt4) :=
  get_found_frame exClass none exSt4 0 2 7 ⟨[⟨0, 2, hashCombine 2 7, 7⟩], []⟩
    ⟨0, 2, hashCombine 2 7, 7⟩ (by decide) (by decide)

/-- C8: idempotent erase.  `erase()` on a registered tag whose collection has
no instance matching the derived (kind, key) returns with the state literally
unchanged: the registry entry's collection is untouched, the `cleanups`
counter does not move (no cleanup function is invoked) and no error is
reported (the result is a plain `some st`, there is no failure channel).
Repeating the erase reproduces the same no-op, hence idempotence. -/
theorem erase_absent_noop {A K V : Type} (c : StorageClass A K V) (st : UniquerState V)
    (tag kind : Nat) (args : A) (e : Entry V)
    (hreg : lookupEntry st.entries tag = some e)
    (hmiss : findInst e.complex (getHash c kind (getKey c args))
      (fun v => c.keyEq v (getKey c args)) = none) :
    eraseOp c st tag kind args = some st := by
  simp only [eraseOp, eraseImpl, hreg, hmiss]

theorem erase_absent_noop_witness :
    eraseOp exClass exSt0 0 1 5 = some exSt0 :=
  erase_absent_noop exClass exSt0 0 1 5 ⟨[], []⟩ (by decide) (by decide)

/-! ## Further shape lemmas -/

theorem getSimpleOp_eq_found {V : Type} (initFn : Option (V → V)) (st : UniquerState V)
    (tag kind : Nat) (e : Entry V) (q : Nat × Nat)
    (hreg : lookupEntry st.entries tag = some e)
    (hf : e.simple.find? (fun r => r.1 == kind) = some q) :
    getSimpleOp initFn st tag kind = some (q.2, st) := by
  simp only [getSimpleOp, getImplSimple, hreg, hf]

theorem getSimpleOp_eq_miss {V : Type} (initFn : Option (V → V)) (st : UniquerState V)
    (tag kind : Nat) (e : Entry V)
    (hreg : lookupEntry st.entries tag = some e)
    (hf : e.simple.find? (fun r => r.1 == kind) = none) :
    getSimpleOp initFn st tag kind =
      some (st.nextAddr, simpleInsertResult initFn st tag kind) := by
  simp only [getSimpleOp, getImplSimple, simpleInsertResult, hreg, hf]

theorem eraseOp_eq_found {A K V : Type} (c : StorageClass A K V) (st : UniquerState V)
    (tag kind : Nat) (args : A) (e : Entry V) (i : Inst V)
    (hreg : lookupEntry st.entries tag = some e)
    (hfound : findInst e.complex (getHash c kind (getKey c args))
      (fun v => c.keyEq v (getKey c args)) = some i) :
    eraseOp c st tag kind args = some (eraseResult c st tag kind args) := by
  simp only [eraseOp, eraseImpl, eraseResult, hreg, hfound]

/-! ## Remaining claim theorems -/

/-- C2: at-most-once construction.  `getImpl`'s lock makes steps 3-5 of spec
§4.2 one atomic region per registry entry, so any N racing `get()` calls with
the same (tag, kind, key) execute as some serialization, modelled by
`getIter`.  If the key is initially absent (`hmiss`), the first call
constructs at the fresh address (`p = st.nextAddr`), the construction counter
advances by exactly one, and every one of the following `n` serialized calls
returns the same pointer `p` without touching the state — so all N callers
get the identical pointer and the construction function ran exactly once. -/
theorem get_constructs_exactly_once_serialized {A K V : Type} (c : StorageClass A K V)
    (initFn : Option (V → V)) (st : UniquerState V) (tag kind : Nat) (args : A)
    (e : Entry V) (p : Nat) (st1 : UniquerState V)
    (hreg : lookupEntry st.entries tag = some e)
    (hmiss : findInst e.complex (getHash c kind (getKey c args))
      (fun v => c.keyEq v (getKey c args)) = none)
    (hctor : c.keyEq (applyInit initFn (c.construct (getKey c args))) (getKey c args) = true)
    (h1 : getOp c initFn st tag kind args = some (p, st1)) :
    p = st.nextAddr ∧ st1.constructions = st.constructions + 1 ∧
      ∀ n, getIter c initFn tag kind args n st1 = some (List.replicate n p, st1) := by
  have hmiss' := getOp_eq_miss c initFn st tag kind args e hreg hmiss
  rw [hmiss'] at h1
  have hp : st.nextAddr = p := by
    simpa using congrArg (fun o => o.map (fun r => r.1)) h1
  have hst : insertResult c initFn st tag kind args = st1 := by
    simpa using congrArg (fun o => o.map (fun r => r.2)) h1
  have hstable : getOp c initFn st1 tag kind args = some (p, st1) := by
    apply get_stable c initFn st tag kind args args p st1 (fun v => rfl) rfl hctor
    rw [hmiss', hp, hst]
  refine ⟨hp.symm, ?_, ?_⟩
  · rw [← hst]
    rfl
  · intro n
    induction n with
    | zero => rfl
    | succ m ih => simp [getIter, hstable, ih, List.replicate_succ]

theorem get_constructs_exactly_once_serialized_witness :
    exSt1.constructions = exSt0.constructions + 1 ∧
      getIter exClass none 0 1 5 3 exSt1 = some (List.replicate 3 0, exSt1) := by
  have h := get_constructs_exactly_once_serialized exClass none exSt0 0 1 5 ⟨[], []⟩ 0 exSt1
    (by decide) (by decide) (by decide) (by decide)
  exact ⟨h.2.1, h.2.2 3⟩

/-- C9: mutation failure channel.  On a registered tag with `i` the instance
at `addr`, `mutate()` hands back to the caller exactly the `LogicalResult`
the storage class's own mutation function produced — failure leaves the state
untouched and is a plain returned value, never a fatal error.  By contrast
the `get` and `erase` paths on a registered tag always yield a plain result
with no success/failure component: mutate is the only engine operation with
an explicit success/failure channel. -/
theorem mutate_result_propagates {A K V : Type} (c : StorageClass A K V)
    (initFn : Option (V → V)) (st : UniquerState V) (tag addr kind : Nat) (args : A)
    (e : Entry V) (i : Inst V) (mutFn : V → Option V)
    (hreg : lookupEntry st.entries tag = some e)
    (hfind : e.complex.find? (fun j => j.addr == addr) = some i) :
    mutateOp st tag addr mutFn =
      some (match mutFn i.val with
        | none => (LogicalResult.failure, st)
        | some v => (LogicalResult.success,
            { st with
              entries := updateEntry st.entries tag
                (fun e2 => { e2 with complex := setVal e2.complex addr v }) })) ∧
      (getOp c initFn st tag kind args).isSome = true ∧
      (eraseOp c st tag kind args).isSome = true := by
  refine ⟨?_, ?_, ?_⟩
  · simp only [mutateOp, hreg, hfind]
    cases hv : mutFn i.val with
    | none => simp only [hv]
    | some v => simp only [hv]
  · cases hf : findInst e.complex (getHash c kind (getKey c args))
        (fun v => c.keyEq v (getKey c args)) with
    | some j =>
      rw [getOp_eq_found c initFn st tag kind args e j hreg hf]
      rfl
    | none =>
      rw [getOp_eq_miss c initFn st tag kind args e hreg hf]
      rfl
  · cases hf : findInst e.complex (getHash c kind (getKey c args))
        (fun v => c.keyEq v (getKey c args)) with
    | some j =>
      rw [eraseOp_eq_found c st tag kind args e j hreg hf]
      rfl
    | none =>
      simp only [eraseOp, eraseImpl, hreg, hf]
      rfl

theorem mutate_result_propagates_witness :
    mutateOp exSt4 0 0 (fun _ => none) = some (LogicalResult.failure, exSt4) ∧
      (getOp exClass none exSt4 0 2 7).isSome = true ∧
      (eraseOp exClass exSt4 0 2 7).isSome = true :=
  mutate_result_propagates exClass none exSt4 0 0 2 7 ⟨[⟨0, 2, hashCombine 2 7, 7⟩], []⟩
    ⟨0, 2, hashCombine 2 7, 7⟩ (fun _ => none) (by decide) (by decide)

/-- C7: kind-only singleton.  For key-less storage on a registered tag (with
the freshness invariant `hwf` and the injectivity invariant `hinj` that
distinct kinds own distinct addresses — both hold in every reachable state
because each slot is allocated at a fresh counter value): after
`get(tag, kindA)` returned `p1`, calling `get(tag, kindA)` again returns the
same pointer `p1` with the state untouched (only the first call constructs),
while `get(tag, kindB)` with `kindB ≠ kindA` returns a pointer different
from `p1` — each kind maps to at most one canonical instance. -/
theorem simple_get_singleton {V : Type} (initFn : Option (V → V))
    (st st1 st2 : UniquerState V) (tag kindA kindB p1 p2 : Nat) (e : Entry V)
    (hreg : lookupEntry st.entries tag = some e)
    (hwf : addrBound st)
    (hinj : ∀ q ∈ e.simple, ∀ r ∈ e.simple, q.1 ≠ r.1 → q.2 ≠ r.2)
    (hne : kindB ≠ kindA)
    (hA : getSimpleOp initFn st tag kindA = some (p1, st1))
    (hB : getSimpleOp initFn st1 tag kindB = some (p2, st2)) :
    getSimpleOp initFn st1 tag kindA = some (p1, st1) ∧ p2 ≠ p1 := by
  have hbound : ∀ r ∈ e.simple, r.2 < st.nextAddr :=
    (hwf (tag, e) (lookupEntry_mem st.entries tag e hreg)).2
  cases hfA : e.simple.find? (fun r => r.1 == kindA) with
  | some q =>
    have hA' := getSimpleOp_eq_found initFn st tag kindA e q hreg hfA
    rw [hA'] at hA
    have hp1 : q.2 = p1 := by
      simpa using congrArg (fun o => o.map (fun r => r.1)) hA
    have hst : st = st1 := by
      simpa using congrArg (fun o => o.map (fun r => r.2)) hA
    constructor
    · rw [← hst, hA', hp1]
    · rw [← hst] at hB
      cases hfB : e.simple.find? (fun r => r.1 == kindB) with
      | some r =>
        have hB' := getSimpleOp_eq_found initFn st tag kindB e r hreg hfB
        rw [hB'] at hB
        have hp2 : r.2 = p2 := by
          simpa using congrArg (fun o => o.map (fun x => x.1)) hB
        have hq1 : q.1 = kindA := by
          simpa using List.find?_some hfA
        have hr1 : r.1 = kindB := by
          simpa using List.find?_some hfB
        have hneq : r.1 ≠ q.1 := by rw [hq1, hr1]; exact hne
        have := hinj r (List.mem_of_find?_eq_some hfB) q (List.mem_of_find?_eq_some hfA) hneq
        rw [← hp2, ← hp1]
        exact this
      | none =>
        have hB' := getSimpleOp_eq_miss initFn st tag kindB e hreg hfB
        rw [hB'] at hB
        have hp2 : st.nextAddr = p2 := by
          simpa using congrArg (fun o => o.map (fun x => x.1)) hB
        have hq2 : q.2 < st.nextAddr := hbound q (List.mem_of_find?_eq_some hfA)
        omega
  | none =>
    have hA' := getSimpleOp_eq_miss initFn st tag kindA e hreg hfA
    rw [hA'] at hA
    have hp1 : st.nextAddr = p1 := by
      simpa using congrArg (fun o => o.map (fun r => r.1)) hA
    have hst : simpleInsertResult initFn st tag kindA = st1 := by
      simpa using congrArg (fun o => o.map (fun r => r.2)) hA
    have hent : st1.entries = updateEntry st.entries tag
        (fun e2 => { e2 with simple := (kindA, st.nextAddr) :: e2.simple }) := by
      rw [← hst]; rfl
    have hreg1 : lookupEntry st1.entries tag =
        some { e with simple := (kindA, st.nextAddr) :: e.simple } := by
      rw [hent, lookupEntry_updateEntry, hreg]
      rfl
    have hffA : ({ e with simple := (kindA, st.nextAddr) :: e.simple } : Entry V).simple.find?
        (fun r => r.1 == kindA) = some (kindA, st.nextAddr) := by
      apply List.find?_cons_of_pos
      simp
    constructor
    · have := getSimpleOp_eq_found initFn st1 tag kindA _ _ hreg1 hffA
      rw [this, hp1]
    · cases hfB : e.simple.find? (fun r => r.1 == kindB) with
      | some r =>
        have hffB : ({ e with simple := (kindA, st.nextAddr) :: e.simple } : Entry V).simple.find?
            (fun x => x.1 == kindB) = some r := by
          rw [List.find?_cons_of_neg _ (by simp only [beq_iff_eq]; exact fun h => hne h.symm)]
          exact hfB
        have hB' := getSimpleOp_eq_found initFn st1 tag kindB _ _ hreg1 hffB
        rw [hB'] at hB
        have hp2 : r.2 = p2 := by
          simpa using congrArg (fun o => o.map (fun x => x.1)) hB
        have hr2 : r.2 < st.nextAddr := hbound r (List.mem_of_find?_eq_some hfB)
        omega
      | none =>
        have hffB : ({ e with simple := (kindA, st.nextAddr) :: e.simple } : Entry V).simple.find?
            (fun x => x.1 == kindB) = none := by
          rw [List.find?_cons_of_neg _ (by simp only [beq_iff_eq]; exact fun h => hne h.symm)]
          exact hfB
        have hB' := getSimpleOp_eq_miss initFn st1 tag kindB _ hreg1 hffB
        rw [hB'] at hB
        have hp2 : st1.nextAddr = p2 := by
          simpa using congrArg (fun o => o.map (fun x => x.1)) hB
        have hn1 : st1.nextAddr = st.nextAddr + 1 := by
          rw [← hst]; rfl
        omega

theorem simple_get_singleton_witness :
    getSimpleOp none exSimple1 0 1 = some (0, exSimple1) ∧ (1 : Nat) ≠ 0 :=
  simple_get_singleton none exSt0 exSimple1 exSimple2 0 1 2 0 1 ⟨[], []⟩
    (by decide) (by unfold addrBound; decide) (by decide) (by decide) (by decide) (by decide)

/-- C5: erase/recreate.  With a live instance `i` for the derived (kind, key)
(hypotheses `hreg`/`hfound`), the freshness invariant `hwf` and invariant I1
(`hone`: the probe accepts at most one stored instance — maintained by the
engine since `get` only inserts on a miss): `erase` runs the cleanup hook
exactly once (`cleanups` advances by one) and frees no arena memory
(`nextAddr` unchanged), and the subsequent `get` with the same key constructs
(`constructions` advances) returning the fresh address `st.nextAddr` — a
pointer different from `i.addr` and from every address the arena ever handed
out before the erase (every pointer returned earlier is `< st.nextAddr`). -/
theorem erase_then_get_fresh {A K V : Type} (c : StorageClass A K V)
    (initFn : Option (V → V)) (st st1 st2 : UniquerState V) (tag kind : Nat) (args : A)
    (e : Entry V) (i : Inst V) (p2 : Nat)
    (hwf : addrBound st)
    (hreg : lookupEntry st.entries tag = some e)
    (hfound : findInst e.complex (getHash c kind (getKey c args))
      (fun v => c.keyEq v (getKey c args)) = some i)
    (hone : matchCount e.complex (getHash c kind (getKey c args))
      (fun v => c.keyEq v (getKey c args)) ≤ 1)
    (herase : eraseOp c st tag kind args = some st1)
    (hget : getOp c initFn st1 tag kind args = some (p2, st2)) :
    st1.cleanups = st.cleanups + 1 ∧
      st1.nextAddr = st.nextAddr ∧
      p2 = st.nextAddr ∧
      st2.constructions = st1.constructions + 1 ∧
      p2 ≠ i.addr ∧
      ∀ q, q < st.nextAddr → p2 ≠ q := by
  rw [eraseOp_eq_found c st tag kind args e i hreg hfound] at herase
  have hst1 : eraseResult c st tag kind args = st1 := by
    simpa using herase
  have hclean : st1.cleanups = st.cleanups + 1 := by rw [← hst1]; rfl
  have hnext : st1.nextAddr = st.nextAddr := by rw [← hst1]; rfl
  have hfound' : e.complex.find? (fun j => j.hash == getHash c kind (getKey c args)
      && c.keyEq j.val (getKey c args)) = some i := hfound
  have hone' : (e.complex.filter (fun j => j.hash == getHash c kind (getKey c args)
      && c.keyEq j.val (getKey c args))).length ≤ 1 := hone
  have hent : st1.entries = updateEntry st.entries tag
      (fun e2 => { e2 with
        complex := removeFirst (fun j => j.hash == getHash c kind (getKey c args)
          && c.keyEq j.val (getKey c args)) e2.complex }) := by
    rw [← hst1]
    rfl
  have hreg1 : lookupEntry st1.entries tag = some { e with
      complex := removeFirst (fun j => j.hash == getHash c kind (getKey c args)
        && c.keyEq j.val (getKey c args)) e.complex } := by
    rw [hent, lookupEntry_updateEntry, hreg]
    rfl
  have hnone : findInst ({ e with
      complex := removeFirst (fun j => j.hash == getHash c kind (getKey c args)
        && c.keyEq j.val (getKey c args)) e.complex } : Entry V).complex
      (getHash c kind (getKey c args)) (fun v => c.keyEq v (getKey c args)) = none :=
    removeFirst_find_none _ e.complex i hfound' hone'
  rw [getOp_eq_miss c initFn st1 tag kind args _ hreg1 hnone] at hget
  have hp2 : st1.nextAddr = p2 := by
    simpa using congrArg (fun o => o.map (fun r => r.1)) hget
  have hst2 : insertResult c initFn st1 tag kind args = st2 := by
    simpa using congrArg (fun o => o.map (fun r => r.2)) hget
  have hcons : st2.constructions = st1.constructions + 1 := by rw [← hst2]; rfl
  have hia : i.addr < st.nextAddr :=
    (hwf (tag, e) (lookupEntry_mem st.entries tag e hreg)).1 i
      (List.mem_of_find?_eq_some hfound')
  refine ⟨hclean, hnext, by omega, hcons, by omega, ?_⟩
  intro q hq
  omega

theorem erase_then_get_fresh_witness :
    exSt5.cleanups = exSt4.cleanups + 1 ∧
      exSt5.nextAddr = exSt4.nextAddr ∧
      (1 : Nat) = exSt4.nextAddr ∧
      exSt6.constructions = exSt5.constructions + 1 ∧
      (1 : Nat) ≠ 0 := by
  have h := erase_then_get_fresh exClass none exSt4 exSt5 exSt6 0 2 7
    ⟨[⟨0, 2, hashCombine 2 7, 7⟩], []⟩ ⟨0, 2, hashCombine 2 7, 7⟩ 1
    (by unfold addrBound; decide) (by decide) (by decide) (by decide) (by decide) (by decide)
  exact ⟨h.1, h.2.1, h.2.2.1, h.2.2.2.1, h.2.2.2.2.1⟩

/-! ## Mutation and the canonical-position invariant -/

theorem map_eq_self_of {α : Type} (l : List α) (g : α → α) (h : ∀ x ∈ l, g x = x) :
    l.map g = l := by
  induction l with
  | nil => rfl
  | cons a t ih =>
    rw [List.map_cons, h a (by simp), ih (fun x hx => h x (by simp [hx]))]

theorem nodup_split_ne {V : Type} (pre post : List (Inst V)) (i : Inst V)
    (hnd : ((pre ++ i :: post).map (fun x => x.addr)).Nodup) :
    ∀ j ∈ pre, j.addr ≠ i.addr := by
  intro j hj he
  rw [List.map_append] at hnd
  rcases List.nodup_append.mp hnd with ⟨h1, h2, hdisj⟩
  exact hdisj (List.mem_map_of_mem _ hj) (by rw [he]; simp)

theorem canonAt_getOp {A K V : Type} (c : StorageClass A K V) (initFn : Option (V → V))
    (st : UniquerState V) (tag kind : Nat) (args : A) (p : Nat)
    (h : canonAt c st tag kind (getKey c args) p) :
    getOp c initFn st tag kind args = some (p, st) := by
  obtain ⟨e, pre, i, post, hreg, hcx, hpre, hi, haddr⟩ := h
  have hfound : e.complex.find? (probePred c kind (getKey c args)) = some i := by
    rw [hcx]
    exact find_middle _ pre i post (fun j hj => (hpre j hj).1) hi
  have hfound2 : findInst e.complex (getHash c kind (getKey c args))
      (fun v => c.keyEq v (getKey c args)) = some i := hfound
  have hfin := getOp_eq_found c initFn st tag kind args e i hreg hfound2
  rw [hfin, haddr]

theorem canonAt_after_get {A K V : Type} (c : StorageClass A K V) (initFn : Option (V → V))
    (st st1 : UniquerState V) (tag kind : Nat) (args : A) (p : Nat) (e : Entry V)
    (hreg : lookupEntry st.entries tag = some e)
    (hnodup : (e.complex.map (fun i => i.addr)).Nodup)
    (hctor : c.keyEq (applyInit initFn (c.construct (getKey c args))) (getKey c args) = true)
    (h1 : getOp c initFn st tag kind args = some (p, st1)) :
    canonAt c st1 tag kind (getKey c args) p := by
  cases hfind : findInst e.complex (getHash c kind (getKey c args))
      (fun v => c.keyEq v (getKey c args)) with
  | some i =>
    rw [getOp_eq_found c initFn st tag kind args e i hreg hfind] at h1
    have hp : i.addr = p := by
      simpa using congrArg (fun o => o.map (fun r => r.1)) h1
    have hst : st = st1 := by
      simpa using congrArg (fun o => o.map (fun r => r.2)) h1
    have hfind2 : e.complex.find? (probePred c kind (getKey c args)) = some i := hfind
    obtain ⟨pre, post, hcx, hpre⟩ := find_split _ e.complex i hfind2
    have hne := nodup_split_ne pre post i (by rw [← hcx]; exact hnodup)
    refine ⟨e, pre, i, post, by rw [← hst]; exact hreg, hcx, ?_, ?_, hp⟩
    · intro j hj
      refine ⟨hpre j hj, fun hq => hne j hj ?_⟩
      rw [hp]
      exact hq
    · exact List.find?_some hfind2
  | none =>
    rw [getOp_eq_miss c initFn st tag kind args e hreg hfind] at h1
    have hp : st.nextAddr = p := by
      simpa using congrArg (fun o => o.map (fun r => r.1)) h1
    have hst : insertResult c initFn st tag kind args = st1 := by
      simpa using congrArg (fun o => o.map (fun r => r.2)) h1
    have hent : st1.entries = updateEntry st.entries tag
        (fun e2 => { e2 with complex :=
          ⟨st.nextAddr, kind, getHash c kind (getKey c args),
            applyInit initFn (c.construct (getKey c args))⟩ :: e2.complex }) := by
      rw [← hst]
      rfl
    have hreg1 : lookupEntry st1.entries tag = some { e with complex :=
        ⟨st.nextAddr, kind, getHash c kind (getKey c args),
          applyInit initFn (c.construct (getKey c args))⟩ :: e.complex } := by
      rw [hent, lookupEntry_updateEntry, hreg]
      rfl
    refine ⟨_, [], ⟨st.nextAddr, kind, getHash c kind (getKey c args),
      applyInit initFn (c.construct (getKey c args))⟩, e.complex, hreg1, rfl, by simp, ?_, hp⟩
    show (getHash c kind (getKey c args) == getHash c kind (getKey c args)
      && c.keyEq (applyInit initFn (c.construct (getKey c args))) (getKey c args)) = true
    simp [hctor]

theorem canonAt_mutateOp {A K V : Type} (c : StorageClass A K V) (st st1 : UniquerState V)
    (tag kind : Nat) (key : K) (p : Nat) (f : V → Option V) (r : LogicalResult)
    (hpres : ∀ v v', f v = some v' → ∀ k, c.keyEq v' k = c.keyEq v k)
    (hc : canonAt c st tag kind key p)
    (hm : mutateOp st tag p f = some (r, st1)) :
    canonAt c st1 tag kind key p := by
  obtain ⟨e, pre, i, post, hreg, hcx, hpre, hi, haddr⟩ := hc
  have hfa : e.complex.find? (fun j => j.addr == p) = some i := by
    rw [hcx]
    apply find_middle
    · intro j hj
      simp [(hpre j hj).2]
    · simp [haddr]
  simp only [mutateOp, hreg, hfa] at hm
  cases hv : f i.val with
  | none =>
    rw [hv] at hm
    have hst : st = st1 := by
      simpa using congrArg (fun o => o.map (fun x => x.2)) hm
    exact ⟨e, pre, i, post, by rw [← hst]; exact hreg, hcx, hpre, hi, haddr⟩
  | some w =>
    rw [hv] at hm
    have hst : ({ st with
        entries := updateEntry st.entries tag
          (fun e2 => { e2 with complex := setVal e2.complex p w }) } : UniquerState V)
        = st1 := by
      simpa using congrArg (fun o => o.map (fun x => x.2)) hm
    have hent : st1.entries = updateEntry st.entries tag
        (fun e2 => { e2 with complex := setVal e2.complex p w }) := by
      rw [← hst]
    have hentry : lookupEntry st1.entries tag =
        some { e with complex := setVal e.complex p w } := by
      rw [hent, lookupEntry_updateEntry, hreg]
      rfl
    have hsplit : setVal e.complex p w =
        pre ++ { i with val := w } :: setVal post p w := by
      rw [hcx]
      unfold setVal
      rw [List.map_append, List.map_cons]
      congr 1
      · exact map_eq_self_of pre _ (fun j hj => if_neg (by simp [(hpre j hj).2]))
      · congr 1
        rw [if_pos (by simp [haddr])]
    refine ⟨{ e with complex := setVal e.complex p w }, pre, { i with val := w },
      setVal post p w, hentry, hsplit, hpre, ?_, haddr⟩
    show (i.hash == getHash c kind key && c.keyEq w key) = true
    have hi2 : (i.hash == getHash c kind key && c.keyEq i.val key) = true := hi
    rw [Bool.and_eq_true] at hi2 ⊢
    exact ⟨hi2.1, by rw [hpres i.val w hv key]; exact hi2.2⟩

theorem canonAt_mutateSeq {A K V : Type} (c : StorageClass A K V) (tag kind : Nat)
    (key : K) (p : Nat) (fs : List (V → Option V)) :
    ∀ st st1, canonAt c st tag kind key p →
      (∀ f ∈ fs, ∀ v v', f v = some v' → ∀ k, c.keyEq v' k = c.keyEq v k) →
      mutateSeq tag p fs st = some st1 → canonAt c st1 tag kind key p := by
  induction fs with
  | nil =>
    intro st st1 hc _ hm
    have hst : st = st1 := by simpa [mutateSeq] using hm
    rw [← hst]
    exact hc
  | cons f t ih =>
    intro st st1 hc hpres hm
    simp only [mutateSeq] at hm
    cases hop : mutateOp st tag p f with
    | none =>
      rw [hop] at hm
      exact Option.noConfusion hm
    | some rs =>
      obtain ⟨r, stm⟩ := rs
      rw [hop] at hm
      have hm2 : mutateSeq tag p t stm = some st1 := hm
      have hc1 := canonAt_mutateOp c st stm tag kind key p f r
        (hpres f (by simp)) hc hop
      exact ih stm st1 hc1 (fun g hg => hpres g (by simp [hg])) hm2

/-- C6: key immutability under mutation.  For an instance returned by
`get()` at pointer `p`, after any sequence of `mutate()` calls on that
instance whose mutation functions touch only the non-key payload (`hpres`:
each preserves the equality outcome against every key — the storage-class
contract that mutation "must not alter any field that participates in the
key"), a further `get()` with the same tag, kind and key still returns the
very same pointer `p` with no state change: mutation never relocates the
instance or changes its identity, stored hash, or equality outcome.
`hnodup` is the reachable-state invariant that registry addresses are
pairwise distinct (each came from a fresh counter value). -/
theorem mutate_preserves_identity {A K V : Type} (c : StorageClass A K V)
    (initFn : Option (V → V)) (st st1 st2 : UniquerState V) (tag kind : Nat) (args : A)
    (p : Nat) (fs : List (V → Option V)) (e : Entry V)
    (hreg : lookupEntry st.entries tag = some e)
    (hnodup : (e.complex.map (fun i => i.addr)).Nodup)
    (hctor : c.keyEq (applyInit initFn (c.construct (getKey c args))) (getKey c args) = true)
    (hpres : ∀ f ∈ fs, ∀ v v', f v = some v' → ∀ k, c.keyEq v' k = c.keyEq v k)
    (h1 : getOp c initFn st tag kind args = some (p, st1))
    (h2 : mutateSeq tag p fs st1 = some st2) :
    getOp c initFn st2 tag kind args = some (p, st2) :=
  canonAt_getOp c initFn st2 tag kind args p
    (canonAt_mutateSeq c tag kind (getKey c args) p fs st1 st2
      (canonAt_after_get c initFn st st1 tag kind args p e hreg hnodup hctor h1) hpres h2)

theorem mutate_preserves_identity_witness :
    getOp exClassPair none exPairSt2 0 1 5 = some (0, exPairSt2) := by
  have hpres : ∀ f ∈ [exMut], ∀ v v', f v = some v' →
      ∀ k, exClassPair.keyEq v' k = exClassPair.keyEq v k := by
    intro f hf v v' hv k
    have hfe : f = exMut := by simpa using hf
    rw [hfe] at hv
    simp only [exMut, Option.some.injEq] at hv
    rw [← hv]
    rfl
  exact mutate_preserves_identity exClassPair none exPairSt0 exPairSt1 exPairSt2 0 1 5 0
    [exMut] ⟨[], []⟩ (by decide) (by simp) (by decide) hpres (by decide) (by decide)

end MLIRStorageUniquer
